import Mathlib

/-!
Verification of the boba-t workflow engine core.

The TypeScript source is shallowly embedded: JavaScript objects (string-keyed,
mutated by `Object.assign`) become association lists where a later binding
shadows an earlier one, mutation becomes explicit state passing, `async`
methods that can throw become `Except`-valued functions, and the
possibly-nonterminating orchestration loop takes explicit fuel.
-/

namespace Boba

/-- JSON-style values stored in the shared context. -/
inductive Value where
  | num : Int → Value
  | str : String → Value
  | arr : List Value → Value

/-- A JavaScript object: bindings in write order; a later binding for the
same key shadows an earlier one (matching `Object.assign` / `Map.set`). -/
abbrev Obj := List (String × Value)

/-- Lookup of the most recent binding for `key`: models reading a property of
a JS object or `Map.get`, where the last write wins. -/
def lookupLast {α : Type} : List (String × α) → String → Option α
  | [], _ => none
  | (k, v) :: rest, key =>
    match lookupLast rest key with
    | some r => some r
    | none => if k = key then some v else none

/-- Property read on a shared-data object. -/
def Obj.get (o : Obj) (key : String) : Option Value :=
  lookupLast o key

/-- Model of `Object.assign(target, source)`: every binding of `source` lands
on top of `target`, overwriting existing keys. -/
def Obj.assign (target source : Obj) : Obj :=
  target ++ source

namespace BaseHandler

/-- Model of `BaseHandler.connectTo(handler, action)`, which runs
`successors.set(action, handler)`: a later write for the same action shadows
the earlier one. -/
def connectTo {H : Type} (successors : List (String × H)) (action : String)
    (handler : H) : List (String × H) :=
  successors ++ [(action, handler)]

/-- Model of `BaseHandler.getNextHandler(action)`: `successors.get(action)`. -/
def getNextHandler {H : Type} (successors : List (String × H))
    (action : String) : Option H :=
  lookupLast successors action

/-- Model of `BaseHandler.setParams(newParams)`, which runs
`Object.assign(this.params, newParams)`, merging the new bindings over the
accumulated ones. -/
def setParams (params newParams : Obj) : Obj :=
  Obj.assign params newParams

/-- Model of `BaseHandler.run(sharedData)`: merges the handler's params into
the shared data (`Object.assign(sharedData, this.params)`) and only then
executes the three-phase lifecycle, here abstracted as one state transformer
returning the action label and the mutated shared data. -/
def run (lifecycle : Obj → String × Obj) (params : Obj) (sd : Obj) :
    String × Obj :=
  lifecycle (Obj.assign sd params)

end BaseHandler

namespace Handler

/-- Observable trace of one `Handler.executeWithRetry(inputs)` call: the final
outcome, how many times `handleRequest` ran, how many times `handleError` ran,
and the error `handleError` received. -/
structure RetryTrace (E O : Type) where
  result : Except E O
  computeCalls : Nat
  errorCalls : Nat
  errorArg : Option E

/-- Body of `Handler.executeWithRetry`'s `for` loop, rendered recursively.
`i` is `this.currentRetry` (0-based attempt index) and `remaining` is
`maxRetries - i`. On the last failing attempt (`currentRetry === maxRetries - 1`)
the fallback `handleError` runs, and its outcome (return value or thrown
error) is the call's outcome. With `remaining = 0` the loop body never runs
and the code throws `lastError ?? new Error(...)`, which is the `unknownErr`
case. -/
def retryGo {E O : Type} (hr : Nat → Except E O) (he : E → Except E O)
    (unknownErr : E) : Nat → Nat → RetryTrace E O
  | _, 0 => ⟨Except.error unknownErr, 0, 0, none⟩
  | i, remaining + 1 =>
    match hr i with
    | Except.ok v => ⟨Except.ok v, 1, 0, none⟩
    | Except.error e =>
      if remaining = 0 then
        ⟨he e, 1, 1, some e⟩
      else
        let t := retryGo hr he unknownErr (i + 1) remaining
        ⟨t.result, t.computeCalls + 1, t.errorCalls, t.errorArg⟩

/-- Model of `Handler.executeWithRetry(inputs)`: attempt `handleRequest` (here
`hr`, indexed by attempt number since each attempt of one call may behave
differently) up to `maxRetries` times; `he` is `handleError` applied to the
fixed `inputs`. The retry delay only affects timing, not outcomes, and is
omitted. -/
def executeWithRetry {E O : Type} (maxRetries : Nat) (hr : Nat → Except E O)
    (he : E → Except E O) (unknownErr : E) : RetryTrace E O :=
  retryGo hr he unknownErr 0 maxRetries

end Handler

namespace Pipeline

/-- Message of the error `Pipeline.handleRequest` always throws. -/
def handleRequestMessage : String :=
  "Pipeline.handleRequest() should not be called directly. Use run() instead."

/-- Model of `Pipeline.handleRequest(inputs)`: unconditionally throws. The
output type `O` is explicit so the theorem can state that no value of it is
ever returned. -/
def handleRequest (O : Type) : Except String O :=
  Except.error handleRequestMessage

/-- Model of `Pipeline.orchestrate(sharedData)`: starting at `h`, repeatedly
run the current handler (obtaining an action label and the mutated shared
data), look the label up in that handler's transition table (`next`), and move
on; when no successor matches, return the last action. The source loop has no
bound, so the model takes fuel and answers `none` only when fuel runs out (a
diverging traversal); `some (a, sd, trace)` records the final action, final
shared data, and the handlers executed, in order. -/
def orchestrate {H : Type} (runHandler : H → Obj → String × Obj)
    (next : H → String → Option H) : Nat → H → Obj → Option (String × Obj × List H)
  | 0, _, _ => none
  | fuel + 1, h, sd =>
    let step := runHandler h sd
    match next h step.1 with
    | none => some (step.1, step.2, [h])
    | some h2 =>
      match orchestrate runHandler next fuel h2 step.2 with
      | none => none
      | some (a3, sd3, trace) => some (a3, sd3, h :: trace)

/-- Model of `Pipeline.run(sharedData)`: merge the pipeline's params into the
shared data, then orchestrate from the start handler. -/
def run {H : Type} (runHandler : H → Obj → String × Obj)
    (next : H → String → Option H) (fuel : Nat) (start : H) (params sd : Obj) :
    Option (String × Obj × List H) :=
  orchestrate runHandler next fuel start (Obj.assign sd params)

/-- Run of a pipeline whose start handler has no successors: it executes that
handler exactly once. Used to instantiate the batch-pipeline scenarios with a
one-node graph, returning the final shared data. -/
def runSingleNode (handlerStep : Obj → String × Obj) (params sd : Obj) : Option Obj :=
  (run (fun (_ : Unit) => handlerStep) (fun _ _ => none) 1 () params sd).map
    (fun r => r.2.1)

end Pipeline

namespace BatchHandler

/-- Model of `BatchConfig` of the retry-aware `BatchHandler`
(source defaults: 1, true, 0, 1). -/
structure BatchConfig where
  maxConcurrency : Nat
  failFast : Bool
  retryDelayMs : Nat
  maxRetries : Nat

/-- Model of `BatchResult<TOutput>` with the error type made explicit. -/
structure BatchResult (E O : Type) where
  results : List O
  errors : List E
  successful : Nat
  failed : Nat
  totalItems : Nat

/-- Loop `for (attempt = 1; attempt <= maxRetries; ...)` of
`BatchHandler.processItemWithRetries`, by recursion on the remaining attempts.
`hsi` is `handleSingleItem` for the item, indexed by the 1-based attempt
number; `hie` is `handleItemError` for the item, receiving the last error
(`none` when `maxRetries` is 0 and no attempt ever ran, where the source
passes `lastError!` still being `null`). The retry delay only affects timing
and is omitted. -/
def retriesGo {E O : Type} (hsi : Nat → Except E O) (hie : Option E → Except E O) :
    Nat → Nat → Option E → Except E O
  | _, 0, lastError => hie lastError
  | attempt, remaining + 1, _ =>
    match hsi attempt with
    | Except.ok v => Except.ok v
    | Except.error e =>
      if remaining = 0 then hie (some e)
      else retriesGo hsi hie (attempt + 1) remaining (some e)

/-- Model of `BatchHandler.processItemWithRetries(item)`: try
`handleSingleItem` up to `maxRetries` times, then fall back to
`handleItemError` with the last error (whose return value resolves the item,
and whose thrown error fails it). -/
def processItemWithRetries {I E O : Type} (maxRetries : Nat)
    (hsi : I → Nat → Except E O) (hie : I → Option E → Except E O) (item : I) :
    Except E O :=
  retriesGo (hsi item) (hie item) 1 maxRetries none

/-- Loop `for (const item of inputs)` of `BatchHandler.processSequentially`,
rendered recursively: successes and failures are accumulated in order, and
with `failFast` the loop breaks at the first failed item. -/
def seqGo {I E O : Type} (failFast : Bool) (processItem : I → Except E O) :
    List I → List O × List E
  | [] => ([], [])
  | item :: rest =>
    match processItem item with
    | Except.ok r =>
      let acc := seqGo failFast processItem rest
      (r :: acc.1, acc.2)
    | Except.error e =>
      if failFast then ([], [e])
      else
        let acc := seqGo failFast processItem rest
        (acc.1, e :: acc.2)

/-- Model of `BatchHandler.processSequentially(inputs)`. -/
def processSequentially {I E O : Type} (cfg : BatchConfig)
    (hsi : I → Nat → Except E O) (hie : I → Option E → Except E O)
    (inputs : List I) : BatchResult E O :=
  let acc := seqGo cfg.failFast (processItemWithRetries cfg.maxRetries hsi hie) inputs
  ⟨acc.1, acc.2, acc.1.length, acc.2.length, inputs.length⟩

/-- Chunking loop of `BatchHandler.chunkArray` (`i += chunkSize` until past
the end), with the input length as fuel; for `size ≥ 1` this yields exactly
the source's chunks (for `size = 0` the source loop never terminates). -/
def chunkGo {α : Type} (size : Nat) : Nat → List α → List (List α)
  | 0, _ => []
  | _, [] => []
  | fuel + 1, a :: rest =>
    (a :: rest).take size :: chunkGo size fuel ((a :: rest).drop size)

/-- Model of `BatchHandler.chunkArray(array, chunkSize)`. -/
def chunkArray {α : Type} (arr : List α) (size : Nat) : List (List α) :=
  chunkGo size arr.length arr

/-- Bookkeeping loop `for (const chunkResult of chunkResults)` of
`BatchHandler.processConcurrently`, rendered recursively over the settled
outcomes of one chunk: successes are appended to the results, errors to the
errors, and with `failFast` the first error returns immediately (the third
component flags that early return), dropping any outcomes that come after it
in the chunk's order. -/
def collectChunk {E O : Type} (failFast : Bool) :
    List (Except E O) → List O × List E × Bool
  | [] => ([], [], false)
  | Except.ok r :: rest =>
    let acc := collectChunk failFast rest
    (r :: acc.1, acc.2.1, acc.2.2)
  | Except.error e :: rest =>
    if failFast then ([], [e], true)
    else
      let acc := collectChunk failFast rest
      (acc.1, e :: acc.2.1, acc.2.2)

/-- Loop `for (const chunk of chunks)` of `BatchHandler.processConcurrently`:
every item of a chunk settles (the source awaits `Promise.all` over the chunk,
catching per-item errors), then the bookkeeping loop runs; an early return
stops before any later chunk starts. -/
def concGo {I E O : Type} (failFast : Bool) (processItem : I → Except E O) :
    List (List I) → List O × List E
  | [] => ([], [])
  | chunk :: rest =>
    let acc := collectChunk failFast (chunk.map processItem)
    if acc.2.2 then (acc.1, acc.2.1)
    else
      let tailAcc := concGo failFast processItem rest
      (acc.1 ++ tailAcc.1, acc.2.1 ++ tailAcc.2)

/-- Model of `BatchHandler.processConcurrently(inputs)`. -/
def processConcurrently {I E O : Type} (cfg : BatchConfig)
    (hsi : I → Nat → Except E O) (hie : I → Option E → Except E O)
    (inputs : List I) : BatchResult E O :=
  let acc := concGo cfg.failFast (processItemWithRetries cfg.maxRetries hsi hie)
    (chunkArray inputs cfg.maxConcurrency)
  ⟨acc.1, acc.2, acc.1.length, acc.2.length, inputs.length⟩

/-- Model of `BatchHandler.handleRequest(inputs)`: empty batches
short-circuit, then `maxConcurrency === 1` selects the sequential path,
anything else the chunked concurrent path. -/
def handleRequest {I E O : Type} (cfg : BatchConfig)
    (hsi : I → Nat → Except E O) (hie : I → Option E → Except E O)
    (inputs : List I) : BatchResult E O :=
  if inputs.isEmpty then ⟨[], [], 0, 0, 0⟩
  else if cfg.maxConcurrency = 1 then processSequentially cfg hsi hie inputs
  else processConcurrently cfg hsi hie inputs

end BatchHandler

namespace BatchPipeline

/-- Model of `BatchPipeline.handleRequest(paramSets)`: run the template
pipeline once per parameter set, strictly sequentially, against the SAME
shared data, so run k's mutations are the starting state of run k+1. Before
each run the batch params are spread over the batch pipeline's own base
params and set on a fresh pipeline instance; `runWith mergedParams sd`
abstracts that instance's `run(sharedData)` and `none` models a diverging
traversal inside it. -/
def handleRequest (runWith : Obj → Obj → Option Obj) (baseParams : Obj)
    (paramSets : List Obj) (sd : Obj) : Option Obj :=
  paramSets.foldlM (fun cur ps => runWith (Obj.assign baseParams ps) cur) sd

end BatchPipeline

namespace ParallelBatchPipeline

/-- Model of `ParallelBatchPipeline.handleRequest(paramSets)` together with
the per-run merge step of `executePipelineWithParams`. Every run receives a
deep copy of the shared data cloned from its state before any run completed:
the clones (`createIsolatedSharedData`) are taken in the synchronous prefix of
each `executePipelineWithParams` call while `paramSets.map(...)` dispatches
them, strictly before the first `await` resolves, so on the single-threaded
event loop all copies equal the pre-batch shared data `sd`. After each run
completes, `mergeSharedDataResults` executes
`Object.assign(currentSharedData, isolatedSharedData)`; the merges are folded
here in submission order, which is also the reference completion order for
runs of equal shape. -/
def handleRequest (runWith : Obj → Obj → Option Obj) (baseParams : Obj)
    (paramSets : List Obj) (sd : Obj) : Option Obj :=
  match paramSets.mapM (fun ps => runWith (Obj.assign baseParams ps) sd) with
  | none => none
  | some isolatedResults => some (isolatedResults.foldl Obj.assign sd)

end ParallelBatchPipeline

namespace ParallelBatchHandler

/-- Model of `ParallelBatchHandler.handleRequest(inputs)`, which runs
`Promise.all(inputs.map(item => processSingleItem(item)))`: on success the
fulfilled values in positional order, on failure the wave rejects (the model
resolves ties among rejections in list order; the claims only concern batches
where no item throws). -/
def handleRequest {I E O : Type} (processSingleItem : I → Except E O) :
    List I → Except E (List O)
  | [] => Except.ok []
  | item :: rest =>
    match processSingleItem item with
    | Except.error e => Except.error e
    | Except.ok r =>
      match handleRequest processSingleItem rest with
      | Except.error e => Except.error e
      | Except.ok rs => Except.ok (r :: rs)

end ParallelBatchHandler

/-- Inner pipeline of the sequential Batch Orchestrator scenario: a single
handler with no successors whose result-processing phase adds the context's
`a` parameter to its `count` key (missing or non-numeric keys read as 0). -/
def incCountStep (sd : Obj) : String × Obj :=
  let addend : Int :=
    match Obj.get sd "a" with
    | some (Value.num n) => n
    | _ => 0
  let current : Int :=
    match Obj.get sd "count" with
    | some (Value.num n) => n
    | _ => 0
  ("default", Obj.assign sd [("count", Value.num (current + addend))])

/-- Scenario run of `BatchPipeline`: parameter sets `[\x7ba := x\x7d, \x7ba := y\x7d]`
over a context starting with `count = c0`, the inner pipeline being the
`count`-incrementing one-node graph. -/
def batchPipelineScenario (x y c0 : Int) : Option Obj :=
  BatchPipeline.handleRequest (Pipeline.runSingleNode incCountStep) []
    [[("a", Value.num x)], [("a", Value.num y)]] [("count", Value.num c0)]

/-- Inner pipeline of the Parallel Batch Orchestrator scenario: a single
handler with no successors whose result-processing phase appends the
context's `tag` parameter to the array stored under `out`. -/
def appendTagStep (sd : Obj) : String × Obj :=
  let tagged := (Obj.get sd "tag").getD (Value.str "")
  let current : List Value :=
    match Obj.get sd "out" with
    | some (Value.arr l) => l
    | _ => []
  ("default", Obj.assign sd [("out", Value.arr (current ++ [tagged]))])

/-- Scenario run of `ParallelBatchPipeline`: parameter sets
`[\x7btag := v1\x7d, \x7btag := v2\x7d]` over a context whose `out` key starts as the
empty array, the inner pipeline appending its `tag` to `out`. -/
def parallelBatchScenario (v1 v2 : Value) : Option Obj :=
  ParallelBatchPipeline.handleRequest (Pipeline.runSingleNode appendTagStep) []
    [[("tag", v1)], [("tag", v2)]] [("out", Value.arr [])]

/-- Per-item computation for the concurrent fail-fast scenarios: item 1
always throws, every other item succeeds with itself. -/
def failOnOne : Nat → Nat → Except String Nat := fun item _ =>
  if item = 1 then Except.error "boom" else Except.ok item

/-- Per-item error fallback for the concurrent fail-fast scenarios: re-throw
the received error (the source default `handleItemError`). -/
def rethrowItemError : Nat → Option String → Except String Nat := fun _ oe =>
  Except.error (oe.getD "unknown")

/-! Helper lemmas about last-write-wins lookup. -/

theorem lookupLast_append {α : Type} (a b : List (String × α)) (key : String) :
    lookupLast (a ++ b) key = (lookupLast b key).orElse (fun _ => lookupLast a key) := by
  induction a with
  | nil =>
    simp only [List.nil_append]
    cases lookupLast b key <;> rfl
  | cons hd tl ih =>
    obtain ⟨k, v⟩ := hd
    have hstep : lookupLast ((k, v) :: tl ++ b) key =
        (match lookupLast (tl ++ b) key with
          | some r => some r
          | none => if k = key then some v else none) := rfl
    rw [hstep, ih]
    cases hb : lookupLast b key <;> rfl

theorem lookupLast_singleton {α : Type} (k : String) (v : α) (key : String) :
    lookupLast [(k, v)] key = if k = key then some v else none := rfl

theorem lookupLast_not_mem {α : Type} (entries : List (String × α)) (key : String)
    (h : ∀ p ∈ entries, p.1 ≠ key) : lookupLast entries key = none := by
  induction entries with
  | nil => rfl
  | cons hd tl ih =>
    obtain ⟨k, v⟩ := hd
    have hk : k ≠ key := h (k, v) (List.mem_cons_self _ _)
    have htl := ih (fun p hp => h p (List.mem_cons_of_mem _ hp))
    simp [lookupLast, htl, hk]

/-! Helper lemmas about the retry loop of `Handler`. -/

theorem retryGo_step {E O : Type} (hr : Nat → Except E O) (he : E → Except E O)
    (unk : E) (i r : Nat) :
    Handler.retryGo hr he unk i (r + 1 + 1) =
      match hr i with
      | Except.ok v => ⟨Except.ok v, 1, 0, none⟩
      | Except.error _ =>
        ⟨(Handler.retryGo hr he unk (i + 1) (r + 1)).result,
         (Handler.retryGo hr he unk (i + 1) (r + 1)).computeCalls + 1,
         (Handler.retryGo hr he unk (i + 1) (r + 1)).errorCalls,
         (Handler.retryGo hr he unk (i + 1) (r + 1)).errorArg⟩ := by
  cases hv : hr i <;> simp [Handler.retryGo, hv]

theorem retryGo_all_fail {E O : Type} (hr : Nat → Except E O)
    (he : E → Except E O) (unk : E) (errs : Nat → E) :
    ∀ r i, 1 ≤ r → (∀ j, j < r → hr (i + j) = Except.error (errs (i + j))) →
      Handler.retryGo hr he unk i r
        = ⟨he (errs (i + r - 1)), r, 1, some (errs (i + r - 1))⟩ := by
  intro r
  induction r with
  | zero => intro i h; omega
  | succ r' ih =>
    intro i _ hfail
    have h0 : hr i = Except.error (errs i) := by
      have := hfail 0 (Nat.succ_pos r')
      simpa using this
    cases hr' : r' with
    | zero =>
      subst hr'
      simp [Handler.retryGo, h0]
    | succ r'' =>
      have hrec := ih (i + 1) (by omega)
        (fun j hj => by
          have := hfail (j + 1) (by omega)
          have harith : i + (j + 1) = i + 1 + j := by omega
          rwa [harith] at this)
      subst hr'
      have harith2 : i + 1 + (r'' + 1) - 1 = i + (r'' + 1 + 1) - 1 := by omega
      rw [retryGo_step, h0]
      simp only [hrec, harith2]

theorem retryGo_succeeds {E O : Type} (hr : Nat → Except E O)
    (he : E → Except E O) (unk : E) (errs : Nat → E) (v : O) :
    ∀ k i r, k < r → (∀ j, j < k → hr (i + j) = Except.error (errs (i + j))) →
      hr (i + k) = Except.ok v →
      Handler.retryGo hr he unk i r = ⟨Except.ok v, k + 1, 0, none⟩ := by
  intro k
  induction k with
  | zero =>
    intro i r hk _ hok
    obtain ⟨r', rfl⟩ : ∃ r', r = r' + 1 := ⟨r - 1, by omega⟩
    simp only [Nat.add_zero] at hok
    simp [Handler.retryGo, hok]
  | succ k' ih =>
    intro i r hk hfail hok
    obtain ⟨r'', rfl⟩ : ∃ r'', r = r'' + 1 + 1 := ⟨r - 2, by omega⟩
    have h0 : hr i = Except.error (errs i) := by
      have := hfail 0 (Nat.succ_pos k')
      simpa using this
    have hrec := ih (i + 1) (r'' + 1) (by omega)
      (fun j hj => by
        have := hfail (j + 1) (by omega)
        have harith : i + (j + 1) = i + 1 + j := by omega
        rwa [harith] at this)
      (by
        have harith : i + (k' + 1) = i + 1 + k' := by omega
        rwa [harith] at hok)
    rw [retryGo_step, h0]
    simp only [hrec]

/-! Helper lemmas about the batch accounting loops. -/

theorem seqGo_length_le {I E O : Type} (failFast : Bool)
    (processItem : I → Except E O) (inputs : List I) :
    (BatchHandler.seqGo failFast processItem inputs).1.length
      + (BatchHandler.seqGo failFast processItem inputs).2.length
      ≤ inputs.length := by
  induction inputs with
  | nil => simp [BatchHandler.seqGo]
  | cons item rest ih =>
    cases hv : processItem item with
    | ok r =>
      simp only [BatchHandler.seqGo, hv, List.length_cons]
      omega
    | error e =>
      cases failFast with
      | true =>
        simp only [BatchHandler.seqGo, hv, if_true, List.length_nil,
          List.length_cons]
        omega
      | false =>
        simp only [BatchHandler.seqGo, hv, Bool.false_eq_true, if_false,
          List.length_cons]
        omega

theorem seqGo_length_eq {I E O : Type} (processItem : I → Except E O)
    (inputs : List I) :
    (BatchHandler.seqGo false processItem inputs).1.length
      + (BatchHandler.seqGo false processItem inputs).2.length
      = inputs.length := by
  induction inputs with
  | nil => simp [BatchHandler.seqGo]
  | cons item rest ih =>
    cases hv : processItem item with
    | ok r =>
      simp only [BatchHandler.seqGo, hv, List.length_cons]
      omega
    | error e =>
      simp only [BatchHandler.seqGo, hv, Bool.false_eq_true, if_false,
        List.length_cons]
      omega

theorem collectChunk_length_le {E O : Type} (failFast : Bool)
    (outcomes : List (Except E O)) :
    (BatchHandler.collectChunk failFast outcomes).1.length
      + (BatchHandler.collectChunk failFast outcomes).2.1.length
      ≤ outcomes.length := by
  induction outcomes with
  | nil => simp [BatchHandler.collectChunk]
  | cons outcome rest ih =>
    cases outcome with
    | ok r =>
      simp only [BatchHandler.collectChunk, List.length_cons]
      omega
    | error e =>
      cases failFast with
      | true =>
        simp only [BatchHandler.collectChunk, if_true, List.length_nil,
          List.length_cons]
        omega
      | false =>
        simp only [BatchHandler.collectChunk, Bool.false_eq_true, if_false,
          List.length_cons]
        omega

theorem collectChunk_no_abort {E O : Type} (outcomes : List (Except E O)) :
    (BatchHandler.collectChunk false outcomes).2.2 = false := by
  induction outcomes with
  | nil => rfl
  | cons outcome rest ih =>
    cases outcome with
    | ok r => simpa only [BatchHandler.collectChunk] using ih
    | error e =>
      simpa only [BatchHandler.collectChunk, Bool.false_eq_true, if_false]
        using ih

theorem collectChunk_length_eq {E O : Type} (outcomes : List (Except E O)) :
    (BatchHandler.collectChunk false outcomes).1.length
      + (BatchHandler.collectChunk false outcomes).2.1.length
      = outcomes.length := by
  induction outcomes with
  | nil => simp [BatchHandler.collectChunk]
  | cons outcome rest ih =>
    cases outcome with
    | ok r =>
      simp only [BatchHandler.collectChunk, List.length_cons]
      omega
    | error e =>
      simp only [BatchHandler.collectChunk, Bool.false_eq_true, if_false,
        List.length_cons]
      omega

theorem concGo_length_le {I E O : Type} (failFast : Bool)
    (processItem : I → Except E O) (chunks : List (List I)) :
    (BatchHandler.concGo failFast processItem chunks).1.length
      + (BatchHandler.concGo failFast processItem chunks).2.length
      ≤ (chunks.map List.length).sum := by
  induction chunks with
  | nil => simp [BatchHandler.concGo]
  | cons chunk rest ih =>
    have hchunk := collectChunk_length_le failFast (chunk.map processItem)
    rw [List.length_map] at hchunk
    simp only [BatchHandler.concGo]
    cases habort : (BatchHandler.collectChunk failFast (chunk.map processItem)).2.2 with
    | true =>
      simp only [habort, if_pos]
      simp only [List.map_cons, List.sum_cons]
      omega
    | false =>
      simp only [habort, Bool.false_eq_true, if_neg, not_false_iff]
      simp only [List.map_cons, List.sum_cons, List.length_append]
      omega

theorem concGo_length_eq {I E O : Type} (processItem : I → Except E O)
    (chunks : List (List I)) :
    (BatchHandler.concGo false processItem chunks).1.length
      + (BatchHandler.concGo false processItem chunks).2.length
      = (chunks.map List.length).sum := by
  induction chunks with
  | nil => simp [BatchHandler.concGo]
  | cons chunk rest ih =>
    have hchunk := collectChunk_length_eq (chunk.map processItem)
    rw [List.length_map] at hchunk
    simp only [BatchHandler.concGo, collectChunk_no_abort, Bool.false_eq_true,
      if_neg, not_false_iff, List.map_cons, List.sum_cons, List.length_append]
    omega

theorem chunkGo_sum_le {α : Type} (size : Nat) :
    ∀ fuel (arr : List α),
      ((BatchHandler.chunkGo size fuel arr).map List.length).sum ≤ arr.length := by
  intro fuel
  induction fuel with
  | zero => intro arr; simp [BatchHandler.chunkGo]
  | succ fuel' ih =>
    intro arr
    cases arr with
    | nil => simp [BatchHandler.chunkGo]
    | cons a rest =>
      have htail := ih ((a :: rest).drop size)
      simp only [BatchHandler.chunkGo, List.map_cons, List.sum_cons]
      have h1 : ((a :: rest).take size).length = min size (a :: rest).length :=
        List.length_take _ _
      have h2 : ((a :: rest).drop size).length = (a :: rest).length - size :=
        List.length_drop _ _
      rw [h2] at htail
      omega

theorem chunkGo_sum_eq {α : Type} (size : Nat) (hsize : 1 ≤ size) :
    ∀ fuel (arr : List α), arr.length ≤ fuel →
      ((BatchHandler.chunkGo size fuel arr).map List.length).sum = arr.length := by
  intro fuel
  induction fuel with
  | zero =>
    intro arr harr
    have : arr = [] := List.length_eq_zero.mp (Nat.le_zero.mp harr)
    subst this
    simp [BatchHandler.chunkGo]
  | succ fuel' ih =>
    intro arr harr
    cases arr with
    | nil => simp [BatchHandler.chunkGo]
    | cons a rest =>
      have h2 : ((a :: rest).drop size).length = (a :: rest).length - size :=
        List.length_drop _ _
      have htail := ih ((a :: rest).drop size)
        (by rw [h2]; simp only [List.length_cons] at harr ⊢; omega)
      simp only [BatchHandler.chunkGo, List.map_cons, List.sum_cons]
      have h1 : ((a :: rest).take size).length = min size (a :: rest).length :=
        List.length_take _ _
      rw [htail, h1, h2]
      simp only [List.length_cons] at harr ⊢
      omega

theorem processSequentially_accounting {I E O : Type}
    (cfg : BatchHandler.BatchConfig) (hsi : I → Nat → Except E O)
    (hie : I → Option E → Except E O) (inputs : List I) :
    (BatchHandler.processSequentially cfg hsi hie inputs).successful
        + (BatchHandler.processSequentially cfg hsi hie inputs).failed
        ≤ (BatchHandler.processSequentially cfg hsi hie inputs).totalItems
    ∧ (BatchHandler.processSequentially cfg hsi hie inputs).successful
        = (BatchHandler.processSequentially cfg hsi hie inputs).results.length
    ∧ (BatchHandler.processSequentially cfg hsi hie inputs).failed
        = (BatchHandler.processSequentially cfg hsi hie inputs).errors.length
    ∧ (cfg.failFast = false →
        (BatchHandler.processSequentially cfg hsi hie inputs).successful
          + (BatchHandler.processSequentially cfg hsi hie inputs).failed
          = (BatchHandler.processSequentially cfg hsi hie inputs).totalItems) := by
  refine ⟨?_, rfl, rfl, ?_⟩
  · exact seqGo_length_le cfg.failFast
      (BatchHandler.processItemWithRetries cfg.maxRetries hsi hie) inputs
  · intro hff
    show (BatchHandler.seqGo cfg.failFast _ inputs).1.length
        + (BatchHandler.seqGo cfg.failFast _ inputs).2.length = inputs.length
    rw [hff]
    exact seqGo_length_eq
      (BatchHandler.processItemWithRetries cfg.maxRetries hsi hie) inputs

theorem processConcurrently_accounting {I E O : Type}
    (cfg : BatchHandler.BatchConfig) (hsi : I → Nat → Except E O)
    (hie : I → Option E → Except E O) (inputs : List I) :
    (BatchHandler.processConcurrently cfg hsi hie inputs).successful
        + (BatchHandler.processConcurrently cfg hsi hie inputs).failed
        ≤ (BatchHandler.processConcurrently cfg hsi hie inputs).totalItems
    ∧ (BatchHandler.processConcurrently cfg hsi hie inputs).successful
        = (BatchHandler.processConcurrently cfg hsi hie inputs).results.length
    ∧ (BatchHandler.processConcurrently cfg hsi hie inputs).failed
        = (BatchHandler.processConcurrently cfg hsi hie inputs).errors.length
    ∧ (cfg.failFast = false → 1 ≤ cfg.maxConcurrency →
        (BatchHandler.processConcurrently cfg hsi hie inputs).successful
          + (BatchHandler.processConcurrently cfg hsi hie inputs).failed
          = (BatchHandler.processConcurrently cfg hsi hie inputs).totalItems) := by
  refine ⟨?_, rfl, rfl, ?_⟩
  · have h1 := concGo_length_le cfg.failFast
      (BatchHandler.processItemWithRetries cfg.maxRetries hsi hie)
      (BatchHandler.chunkArray inputs cfg.maxConcurrency)
    have h2 := chunkGo_sum_le cfg.maxConcurrency inputs.length inputs
    exact le_trans h1 h2
  · intro hff hc
    have h2 := chunkGo_sum_eq cfg.maxConcurrency hc inputs.length inputs
      (le_refl _)
    show (BatchHandler.concGo cfg.failFast _ _).1.length
        + (BatchHandler.concGo cfg.failFast _ _).2.length = inputs.length
    rw [hff]
    exact (concGo_length_eq
      (BatchHandler.processItemWithRetries cfg.maxRetries hsi hie)
      (BatchHandler.chunkArray inputs cfg.maxConcurrency)).trans h2

/-! Helper lemmas for the fail-fast concurrent path. -/

theorem collectChunk_all_ok {I E O : Type} (failFast : Bool)
    (processItem : I → Except E O) (g : I → O) :
    ∀ chunk : List I, (∀ item ∈ chunk, processItem item = Except.ok (g item)) →
      BatchHandler.collectChunk failFast (chunk.map processItem)
        = (chunk.map g, [], false) := by
  intro chunk
  induction chunk with
  | nil => intro _; rfl
  | cons a rest ih =>
    intro h
    have ha := h a (List.mem_cons_self _ _)
    have hrest := ih (fun i hi => h i (List.mem_cons_of_mem _ hi))
    simp only [List.map_cons, ha, BatchHandler.collectChunk, hrest]

theorem collectChunk_prefix_fail {I E O : Type} (processItem : I → Except E O)
    (g : I → O) (e : E) (x : I) (post : List I) :
    ∀ pre : List I, (∀ item ∈ pre, processItem item = Except.ok (g item)) →
      processItem x = Except.error e →
      BatchHandler.collectChunk true ((pre ++ x :: post).map processItem)
        = (pre.map g, [e], true) := by
  intro pre
  induction pre with
  | nil =>
    intro _ hx
    simp [BatchHandler.collectChunk, hx]
  | cons a rest ih =>
    intro h hx
    have ha := h a (List.mem_cons_self _ _)
    have hrest := ih (fun i hi => h i (List.mem_cons_of_mem _ hi)) hx
    simp only [List.cons_append, List.map_cons, ha, BatchHandler.collectChunk,
      hrest]

theorem concGo_ok_chunks {I E O : Type} (failFast : Bool)
    (processItem : I → Except E O) (g : I → O) :
    ∀ (done rest : List (List I)),
      (∀ item ∈ done.flatten, processItem item = Except.ok (g item)) →
      BatchHandler.concGo failFast processItem (done ++ rest)
        = (done.flatten.map g ++ (BatchHandler.concGo failFast processItem rest).1,
           (BatchHandler.concGo failFast processItem rest).2) := by
  intro done
  induction done with
  | nil => intro rest _; simp
  | cons chunk dtail ih =>
    intro rest h
    have hchunk := collectChunk_all_ok failFast processItem g chunk
      (fun i hi => h i (List.mem_flatten.mpr ⟨chunk, List.mem_cons_self _ _, hi⟩))
    have hdtail := ih rest (fun i hi => h i (List.mem_flatten.mpr (by
      obtain ⟨s, hs, his⟩ := List.mem_flatten.mp hi
      exact ⟨s, List.mem_cons_of_mem _ hs, his⟩)))
    simp only [List.cons_append, BatchHandler.concGo, hchunk,
      Bool.false_eq_true, if_false, List.flatten_cons, List.map_append,
      List.append_assoc, List.nil_append]
    rw [show dtail.append rest = dtail ++ rest from rfl, hdtail]

/-! Claim theorems. -/

/-- Counterexample to C1: a Parallel Batch Orchestrator run over two parameter
sets whose runs both append an element to the `out` array of the context
(starting empty) ends with `out` holding only the second run's element — the
first run's appended element is silently lost, because both isolated copies
were cloned from the pre-run context and the merge-back shallow-overwrites the
whole `out` key, last write winning. This refutes the claim that the final
context contains the results from both runs. -/
theorem c1_counterexample_first_append_lost :
    (parallelBatchScenario (Value.str "r1") (Value.str "r2")).bind
        (fun sd => Obj.get sd "out") = some (Value.arr [Value.str "r2"])
    ∧ ¬ Value.str "r1" ∈ [Value.str "r2"] := by
  refine ⟨rfl, ?_⟩
  simp

/-- C1 (amended): after a Parallel Batch Orchestrator run over two parameter
sets whose runs both append an element to the same `out` array of the context
(starting empty), the final shared context's `out` array holds exactly the
element appended by the last-merged run; the other run's element is
overwritten, since each isolated copy is cloned from the pre-run context and
`mergeSharedDataResults` shallow-assigns whole keys, last write winning. -/
theorem c1_parallel_merge_last_write_wins (v1 v2 : Value) :
    (parallelBatchScenario v1 v2).bind (fun sd => Obj.get sd "out")
      = some (Value.arr [v2]) := rfl

/-- Counterexample to C2: with `failFast = true` and `maxConcurrency = 2`, the
chunk `[1, 2]` has item 1 fail and item 2 resolve successfully, yet the
returned Batch Result preserves neither that success (`results = []`,
`successful = 0`): the bookkeeping loop returns at the first error, dropping
outcomes that settled after it within the same dispatched chunk. This refutes
the claim that the outcomes of every other item already dispatched within the
failing chunk are preserved. -/
theorem c2_counterexample_resolved_success_dropped :
    BatchHandler.processItemWithRetries 1 failOnOne rethrowItemError 2
        = Except.ok 2
    ∧ (BatchHandler.processConcurrently ⟨2, true, 0, 1⟩ failOnOne
        rethrowItemError [1, 2]).results = []
    ∧ (BatchHandler.processConcurrently ⟨2, true, 0, 1⟩ failOnOne
        rethrowItemError [1, 2]).successful = 0 :=
  ⟨rfl, rfl, rfl⟩

/-- C2 (amended): with `failFast = true`, when an item of some chunk fails
after exhausting its retries (and all items of earlier chunks and all items
before it in its chunk succeeded), the Batch Result holds exactly the
successes of the earlier chunks and of the failing chunk's prefix before the
first failure, plus that one error; items after the failure in the chunk's
order are discarded and no subsequent chunk is started (the items of `post`
and `later` do not influence the result). -/
theorem c2_failfast_preserves_pre_failure_outcomes {I E O : Type}
    (cfg : BatchHandler.BatchConfig) (hsi : I → Nat → Except E O)
    (hie : I → Option E → Except E O) (inputs : List I)
    (done : List (List I)) (pre post : List I) (x : I)
    (later : List (List I)) (g : I → O) (e : E)
    (hff : cfg.failFast = true)
    (hchunks : BatchHandler.chunkArray inputs cfg.maxConcurrency
      = done ++ (pre ++ x :: post) :: later)
    (hok : ∀ item ∈ done.flatten ++ pre,
      BatchHandler.processItemWithRetries cfg.maxRetries hsi hie item
        = Except.ok (g item))
    (hfail : BatchHandler.processItemWithRetries cfg.maxRetries hsi hie x
        = Except.error e) :
    BatchHandler.processConcurrently cfg hsi hie inputs
      = ⟨(done.flatten ++ pre).map g, [e],
          ((done.flatten ++ pre).map g).length, 1, inputs.length⟩ := by
  have hdone : ∀ item ∈ done.flatten,
      BatchHandler.processItemWithRetries cfg.maxRetries hsi hie item
        = Except.ok (g item) :=
    fun i hi => hok i (List.mem_append_left _ hi)
  have hpre : ∀ item ∈ pre,
      BatchHandler.processItemWithRetries cfg.maxRetries hsi hie item
        = Except.ok (g item) :=
    fun i hi => hok i (List.mem_append_right _ hi)
  have hfailchunk := collectChunk_prefix_fail
    (BatchHandler.processItemWithRetries cfg.maxRetries hsi hie) g e x post
    pre hpre hfail
  have hfailchunk' := hfailchunk
  simp only [List.map_append, List.map_cons] at hfailchunk'
  have hhead : BatchHandler.concGo true
      (BatchHandler.processItemWithRetries cfg.maxRetries hsi hie)
      ((pre ++ x :: post) :: later) = (pre.map g, [e]) := by
    simp [BatchHandler.concGo, hfailchunk']
  have hacc : BatchHandler.concGo cfg.failFast
      (BatchHandler.processItemWithRetries cfg.maxRetries hsi hie)
      (BatchHandler.chunkArray inputs cfg.maxConcurrency)
      = ((done.flatten ++ pre).map g, [e]) := by
    rw [hchunks, hff,
      concGo_ok_chunks true _ g done ((pre ++ x :: post) :: later) hdone,
      hhead]
    simp [List.map_append]
  simp only [BatchHandler.processConcurrently]
  rw [hacc]
  rfl

/-- Witness for C2 (amended): `[10, 1, 99]` with `maxConcurrency = 2` chunks
as `[[10, 1], [99]]`; item 10 succeeds, item 1 fails, so the result keeps the
one pre-failure success and the one error, and chunk `[99]` never starts. -/
theorem c2_failfast_preserves_pre_failure_outcomes_witness :
    BatchHandler.processConcurrently ⟨2, true, 0, 1⟩ failOnOne rethrowItemError
        [10, 1, 99] = ⟨[10], ["boom"], 1, 1, 3⟩ := by
  have h := c2_failfast_preserves_pre_failure_outcomes ⟨2, true, 0, 1⟩
    failOnOne rethrowItemError [10, 1, 99] [] [10] [] 1 [[99]]
    (fun n => n) "boom" rfl rfl
    (by intro item him; simp at him; subst him; rfl) rfl
  simpa using h

/-- C3: for a Retrying Unit with `maxRetries = N ≥ 1`, if `handleRequest`
fails on every attempt it is invoked exactly `N` times and `handleError` is
then invoked exactly once with the last error (its outcome becoming the
call's outcome); if `handleRequest` fails the first `k` attempts and succeeds
on attempt `k + 1 ≤ N`, the call succeeds with that value, `handleRequest` is
invoked exactly `k + 1` times, and `handleError` is never invoked. -/
theorem c3_retry_bound_and_short_circuit {E O : Type} (N : Nat)
    (hr : Nat → Except E O) (he : E → Except E O) (unk : E) (errs : Nat → E) :
    (1 ≤ N → (∀ i, i < N → hr i = Except.error (errs i)) →
      (Handler.executeWithRetry N hr he unk).computeCalls = N
      ∧ (Handler.executeWithRetry N hr he unk).errorCalls = 1
      ∧ (Handler.executeWithRetry N hr he unk).errorArg = some (errs (N - 1))
      ∧ (Handler.executeWithRetry N hr he unk).result = he (errs (N - 1)))
    ∧ (∀ k v, k < N → (∀ i, i < k → hr i = Except.error (errs i)) →
        hr k = Except.ok v →
        (Handler.executeWithRetry N hr he unk).result = Except.ok v
        ∧ (Handler.executeWithRetry N hr he unk).computeCalls = k + 1
        ∧ (Handler.executeWithRetry N hr he unk).errorCalls = 0) := by
  constructor
  · intro hN hfail
    have h := retryGo_all_fail hr he unk errs N 0 hN
      (fun j hj => by simpa using hfail j hj)
    have hgo : Handler.executeWithRetry N hr he unk
        = Handler.retryGo hr he unk 0 N := rfl
    rw [hgo, h]
    simp
  · intro k v hk hfail hok
    have h := retryGo_succeeds hr he unk errs v k 0 N hk
      (fun j hj => by simpa using hfail j hj) (by simpa using hok)
    have hgo : Handler.executeWithRetry N hr he unk
        = Handler.retryGo hr he unk 0 N := rfl
    rw [hgo, h]
    simp

/-- Witness for C3: with `maxRetries = 2` and an always-failing compute,
there are exactly 2 compute calls and the fallback receives the second error;
with `maxRetries = 3` and a compute failing twice then succeeding with 7, the
run succeeds after exactly 3 compute calls with no fallback call. -/
theorem c3_retry_bound_and_short_circuit_witness :
    ((Handler.executeWithRetry 2
        (fun i => (Except.error (i + 1) : Except Nat Nat))
        (fun e => Except.error e) 0).computeCalls = 2
      ∧ (Handler.executeWithRetry 2
        (fun i => (Except.error (i + 1) : Except Nat Nat))
        (fun e => Except.error e) 0).errorCalls = 1
      ∧ (Handler.executeWithRetry 2
        (fun i => (Except.error (i + 1) : Except Nat Nat))
        (fun e => Except.error e) 0).errorArg = some 2)
    ∧ ((Handler.executeWithRetry 3
        (fun i => if i < 2 then (Except.error (i + 1) : Except Nat Nat)
          else Except.ok 7)
        (fun e => Except.error e) 0).result = Except.ok 7
      ∧ (Handler.executeWithRetry 3
        (fun i => if i < 2 then (Except.error (i + 1) : Except Nat Nat)
          else Except.ok 7)
        (fun e => Except.error e) 0).computeCalls = 3
      ∧ (Handler.executeWithRetry 3
        (fun i => if i < 2 then (Except.error (i + 1) : Except Nat Nat)
          else Except.ok 7)
        (fun e => Except.error e) 0).errorCalls = 0) := by
  constructor
  · have h := (c3_retry_bound_and_short_circuit 2
      (fun i => (Except.error (i + 1) : Except Nat Nat))
      (fun e => Except.error e) 0 (fun i => i + 1)).1
      (by decide) (fun i _ => rfl)
    exact ⟨h.1, h.2.1, h.2.2.1⟩
  · have h := (c3_retry_bound_and_short_circuit 3
      (fun i => if i < 2 then (Except.error (i + 1) : Except Nat Nat)
        else Except.ok 7)
      (fun e => Except.error e) 0 (fun i => i + 1)).2 2 7
      (by decide) (fun i hi => by simp [hi]) rfl
    exact ⟨h.1, h.2.1, h.2.2⟩

/-- C4: a Batch Orchestrator runs the template pipeline once per parameter
set, strictly sequentially, against the same shared context, so mutations
accumulate across runs: over parameter sets adding `x` then `y` to `count`
starting from `c0`, the final context has `count = c0 + x + y`; in particular
over `[\x7ba := 1\x7d, \x7ba := 2\x7d]` starting from `count = 0` it ends with
`count = 3`. -/
theorem c4_batch_pipeline_accumulates :
    (∀ x y c0 : Int,
      (batchPipelineScenario x y c0).bind (fun sd => Obj.get sd "count")
        = some (Value.num (c0 + x + y)))
    ∧ (batchPipelineScenario 1 2 0).bind (fun sd => Obj.get sd "count")
        = some (Value.num 3) := by
  constructor
  · intro x y c0
    rfl
  · rfl

/-- C5: an Orchestrator started at a Unit whose run returns an action label
with no entry in its transition table halts after that single execution —
the trace is just the start handler — and returns that label as its own
result (a `some` value, not an error). -/
theorem c5_orchestrate_halts_without_transition {H : Type}
    (runHandler : H → Obj → String × Obj) (next : H → String → Option H)
    (fuel : Nat) (start : H) (sd sd2 : Obj) (a : String)
    (hstep : runHandler start sd = (a, sd2))
    (hnone : next start a = none) :
    Pipeline.orchestrate runHandler next (fuel + 1) start sd
      = some (a, sd2, [start]) := by
  simp [Pipeline.orchestrate, hstep, hnone]

/-- Witness for C5: a one-handler graph with no transitions halts at once,
returning the handler's action. -/
theorem c5_orchestrate_halts_without_transition_witness :
    Pipeline.orchestrate (fun (_ : Unit) sd => ("done", sd)) (fun _ _ => none)
      5 () [("k", Value.num 0)] = some ("done", [("k", Value.num 0)], [()]) :=
  c5_orchestrate_halts_without_transition
    (fun (_ : Unit) sd => ("done", sd)) (fun _ _ => none) 4 ()
    [("k", Value.num 0)] [("k", Value.num 0)] "done" rfl rfl

/-- C6: every Batch Result of `BatchHandler.handleRequest`, for any
configuration, per-item computation, error fallback and input list, satisfies
`successful + failed ≤ totalItems`, `successful = results.length` and
`failed = errors.length`; and the inequality is strict only when fail-fast
aborted remaining items — without fail-fast (and a chunk size the source
terminates on) it is an equality. -/
theorem c6_batch_result_accounting {I E O : Type}
    (cfg : BatchHandler.BatchConfig) (hsi : I → Nat → Except E O)
    (hie : I → Option E → Except E O) (inputs : List I) :
    (BatchHandler.handleRequest cfg hsi hie inputs).successful
        + (BatchHandler.handleRequest cfg hsi hie inputs).failed
        ≤ (BatchHandler.handleRequest cfg hsi hie inputs).totalItems
    ∧ (BatchHandler.handleRequest cfg hsi hie inputs).successful
        = (BatchHandler.handleRequest cfg hsi hie inputs).results.length
    ∧ (BatchHandler.handleRequest cfg hsi hie inputs).failed
        = (BatchHandler.handleRequest cfg hsi hie inputs).errors.length
    ∧ (cfg.failFast = false → 1 ≤ cfg.maxConcurrency →
        (BatchHandler.handleRequest cfg hsi hie inputs).successful
          + (BatchHandler.handleRequest cfg hsi hie inputs).failed
          = (BatchHandler.handleRequest cfg hsi hie inputs).totalItems) := by
  by_cases hempty : inputs.isEmpty
  · have hreq : BatchHandler.handleRequest cfg hsi hie inputs
        = ⟨[], [], 0, 0, 0⟩ := by
      simp [BatchHandler.handleRequest, hempty]
    rw [hreq]
    exact ⟨le_refl 0, rfl, rfl, fun _ _ => rfl⟩
  · by_cases hconc : cfg.maxConcurrency = 1
    · have hreq : BatchHandler.handleRequest cfg hsi hie inputs
          = BatchHandler.processSequentially cfg hsi hie inputs := by
        simp [BatchHandler.handleRequest, hempty, hconc]
      rw [hreq]
      have h := processSequentially_accounting cfg hsi hie inputs
      exact ⟨h.1, h.2.1, h.2.2.1, fun hff _ => h.2.2.2 hff⟩
    · have hreq : BatchHandler.handleRequest cfg hsi hie inputs
          = BatchHandler.processConcurrently cfg hsi hie inputs := by
        simp [BatchHandler.handleRequest, hempty, hconc]
      rw [hreq]
      exact processConcurrently_accounting cfg hsi hie inputs

/-- Witness for C6: a concrete non-fail-fast concurrent batch where the
counts add up to the total. -/
theorem c6_batch_result_accounting_witness :
    (BatchHandler.handleRequest ⟨2, false, 0, 1⟩ failOnOne rethrowItemError
        [1, 2, 3]).successful
      + (BatchHandler.handleRequest ⟨2, false, 0, 1⟩ failOnOne
        rethrowItemError [1, 2, 3]).failed
      = (BatchHandler.handleRequest ⟨2, false, 0, 1⟩ failOnOne
        rethrowItemError [1, 2, 3]).totalItems :=
  (c6_batch_result_accounting ⟨2, false, 0, 1⟩ failOnOne rethrowItemError
    [1, 2, 3]).2.2.2 rfl (by decide)

/-- C7: invoking the Orchestrator's compute phase `Pipeline.handleRequest`
directly always throws the dedicated error — it never returns a value. -/
theorem c7_pipeline_handle_request_always_throws (O : Type) :
    Pipeline.handleRequest O = Except.error Pipeline.handleRequestMessage
    ∧ (Pipeline.handleRequest O).isOk = false :=
  ⟨rfl, rfl⟩

/-- C8: after connecting a Unit to `V` under label `L`, `getNextHandler L`
returns `V`; reconnecting `L` to `W` makes subsequent lookups return `W`
(last write wins); and a label never connected yields no handler. -/
theorem c8_transition_table_last_write_wins {H : Type}
    (succ : List (String × H)) (L M : String) (V W : H) :
    BaseHandler.getNextHandler (BaseHandler.connectTo succ L V) L = some V
    ∧ BaseHandler.getNextHandler
        (BaseHandler.connectTo (BaseHandler.connectTo succ L V) L W) L = some W
    ∧ ((∀ p ∈ succ, p.1 ≠ M) → BaseHandler.getNextHandler succ M = none) := by
  refine ⟨?_, ?_, ?_⟩
  · show lookupLast (succ ++ [(L, V)]) L = some V
    rw [lookupLast_append]
    simp [lookupLast_singleton]
  · show lookupLast ((succ ++ [(L, V)]) ++ [(L, W)]) L = some W
    rw [lookupLast_append]
    simp [lookupLast_singleton]
  · intro h
    exact lookupLast_not_mem succ M h

/-- Witness for C8 at a concrete transition table. -/
theorem c8_transition_table_last_write_wins_witness :
    BaseHandler.getNextHandler (BaseHandler.connectTo [("a", 1)] "go" 2) "go"
        = some 2
    ∧ BaseHandler.getNextHandler
        (BaseHandler.connectTo (BaseHandler.connectTo [("a", 1)] "go" 2)
          "go" 3) "go" = some 3
    ∧ BaseHandler.getNextHandler [("a", (1 : Nat))] "missing" = none := by
  have h := c8_transition_table_last_write_wins [("a", (1 : Nat))]
    "go" "missing" 2 3
  exact ⟨h.1, h.2.1, h.2.2 (by decide)⟩

/-- C9: calling `setParams` twice merges the second parameter map over the
first (a key reads as its value in `q2` when present there, else its value in
`q1`, else the prior value); and `run` first shallow-merges the Unit's
parameters into the shared context — parameter values overwriting existing
context keys — and only then executes the lifecycle phases on the merged
context. -/
theorem c9_set_params_merges_and_run_premerges (p q1 q2 sd : Obj)
    (key : String) (lifecycle : Obj → String × Obj) :
    Obj.get (BaseHandler.setParams (BaseHandler.setParams p q1) q2) key
        = (Obj.get q2 key).orElse
            (fun _ => (Obj.get q1 key).orElse (fun _ => Obj.get p key))
    ∧ BaseHandler.run lifecycle q2 sd = lifecycle (Obj.assign sd q2)
    ∧ Obj.get (Obj.assign sd q2) key
        = (Obj.get q2 key).orElse (fun _ => Obj.get sd key) := by
  refine ⟨?_, rfl, ?_⟩
  · show lookupLast ((p ++ q1) ++ q2) key = _
    simp only [Obj.get, lookupLast_append]
  · show lookupLast (sd ++ q2) key = _
    simp only [Obj.get, lookupLast_append]

/-- C10: when no per-item computation throws, `ParallelBatchHandler`'s
request over a list returns the per-item results in positional order — the
output is exactly the input list mapped through the computation (hence of
the same length, with the i-th output the result of the i-th input). -/
theorem c10_parallel_batch_positional {I E O : Type} (f : I → Except E O)
    (g : I → O) (inputs : List I)
    (hok : ∀ i ∈ inputs, f i = Except.ok (g i)) :
    ParallelBatchHandler.handleRequest f inputs = Except.ok (inputs.map g) := by
  induction inputs with
  | nil => rfl
  | cons a rest ih =>
    have ha := hok a (List.mem_cons_self _ _)
    have hrest := ih (fun i hi => hok i (List.mem_cons_of_mem _ hi))
    simp only [ParallelBatchHandler.handleRequest, ha, hrest, List.map_cons]

/-- Witness for C10 at a concrete batch. -/
theorem c10_parallel_batch_positional_witness :
    ParallelBatchHandler.handleRequest
        (fun n : Nat => (Except.ok (n * 2) : Except String Nat)) [1, 2, 3]
      = Except.ok [2, 4, 6] := by
  have h := c10_parallel_batch_positional
    (fun n : Nat => (Except.ok (n * 2) : Except String Nat))
    (fun n => n * 2) [1, 2, 3] (fun i _ => rfl)
  simpa using h

end Boba
